import Mathlib

/-!
Verification development for the audio assembly pipeline of the
Podcast-Script-to-Speech repository (src/utils/audio.ts, src/App.tsx).

The TypeScript source is shallowly embedded: byte buffers become `List ℕ`
(each element a byte value), 16-bit signed PCM samples become `ℤ` wrapped
with explicit mod-2^16 arithmetic where JavaScript typed arrays wrap, and
normalized floating-point samples become `ℚ` (every arithmetic step the
source performs on samples in the ranges of interest is exact in binary
floating point, so rational arithmetic is a faithful model).  Fallible
operations return `Except` / `Option`.
-/

namespace PodcastAudio

/-! ## Errors

The spec's error taxonomy: `MalformedEncodingError` (bad base64),
`MusicFetchError` (retrieval failure), `MusicDecodeError` (codec failure).
`oddByteLength` models the RangeError thrown by `new Int16Array(buffer)`
when the buffer's byte length is not a multiple of 2. -/

inductive AudioError where
  | malformedEncoding
  | oddByteLength
  | musicFetchError
  | musicDecodeError
deriving DecidableEq, Repr

/-! ## Byte Decoder (src/utils/audio.ts, `decode`, lines 2-10)

`decode` calls the platform function `atob` and copies the resulting
binary string's char codes into a `Uint8Array`.  `atob` implements the
WHATWG forgiving-base64 decode: strip ASCII whitespace, strip up to two
trailing `=` when the remaining length is a multiple of 4, fail when the
length is congruent 1 mod 4 or a character is outside the alphabet,
otherwise decode 6-bit groups into bytes. -/

def isB64Whitespace (c : Char) : Bool :=
  c = ' ' || c = '\t' || c = '\n' || c = '\x0c' || c = '\r'

def b64Index (c : Char) : Option ℕ :=
  if 'A' ≤ c ∧ c ≤ 'Z' then some (c.toNat - 65)
  else if 'a' ≤ c ∧ c ≤ 'z' then some (c.toNat - 97 + 26)
  else if '0' ≤ c ∧ c ≤ '9' then some (c.toNat - 48 + 52)
  else if c = '+' then some 62
  else if c = '/' then some 63
  else none

/-- Strip up to two trailing `=` characters when the length is a multiple
of 4, as the forgiving-base64 algorithm does. -/
def stripPadding (cs : List Char) : List Char :=
  if cs.length % 4 = 0 then
    if cs.getLast? = some '=' then
      let cs := cs.dropLast
      if cs.getLast? = some '=' then cs.dropLast else cs
    else cs
  else cs

/-- Turn a list of 6-bit values into bytes; a leftover group of two or
three sextets yields one or two bytes, discarding the spare low bits. -/
def b64Sextets : List ℕ → List ℕ
  | a :: b :: c :: d :: rest =>
      ((a % 64) * 4 + b % 64 / 16) ::
      ((b % 16) * 16 + c % 64 / 4) ::
      ((c % 4) * 64 + d % 64) :: b64Sextets rest
  | [a, b] => [(a % 64) * 4 + b % 64 / 16]
  | [a, b, c] => [(a % 64) * 4 + b % 64 / 16, (b % 16) * 16 + c % 64 / 4]
  | _ => []

/-- Look up every character in the base64 alphabet, failing on the first
character outside it. -/
def b64Lookup : List Char → Option (List ℕ)
  | [] => some []
  | c :: rest =>
    match b64Index c, b64Lookup rest with
    | some v, some vs => some (v :: vs)
    | _, _ => none

/-- Modelled platform collaborator: the WHATWG forgiving-base64 decode
performed by the browser's `atob`. -/
def atob (s : String) : Option (List ℕ) :=
  let cs := stripPadding (s.data.filter (fun c => !isB64Whitespace c))
  if cs.length % 4 = 1 then none
  else (b64Lookup cs).map b64Sextets

/-- Validity predicate for base64 input, stated independently of the
decoder: after whitespace removal and padding stripping, the length is
not congruent 1 mod 4 and every character is in the base64 alphabet. -/
def isValidBase64 (s : String) : Bool :=
  let cs := stripPadding (s.data.filter (fun c => !isB64Whitespace c))
  decide (cs.length % 4 ≠ 1) && cs.all (fun c => (b64Index c).isSome)

/-- src/utils/audio.ts `decode`: base64 string to raw byte buffer; the
platform `atob` failure surfaces as `MalformedEncodingError`. -/
def decode (base64 : String) : Except AudioError (List ℕ) :=
  match atob base64 with
  | none => .error .malformedEncoding
  | some bytes => .ok bytes

/-! ## Sample Converter

`pcm16ToFloat` comes from src/utils/audio.ts line 107
(`speechDataInt16[i] / 32768.0`); `floatToPcm16` from lines 77-78
(`Math.max(-1, Math.min(1, x))` then `sample < 0 ? sample * 0x8000 :
sample * 0x7FFF`, assigned to an `Int16Array`, which truncates toward
zero and wraps mod 2^16). -/

def pcm16ToFloat (s : ℤ) : ℚ := (s : ℚ) / 32768

def clamp (f : ℚ) : ℚ := max (-1) (min 1 f)

/-- JavaScript ToIntegerOrInfinity on a finite value: truncation toward
zero. -/
def truncTowardZero (q : ℚ) : ℤ := if q < 0 then ⌈q⌉ else ⌊q⌋

/-- Wrap an integer into the signed 16-bit range, as storing into an
`Int16Array` does. -/
def toInt16 (n : ℤ) : ℤ := (n + 32768) % 65536 - 32768

/-- The float-to-PCM16 conversion of `audioBufferToPcm`
(src/utils/audio.ts lines 77-78). -/
def floatToPcm16 (f : ℚ) : ℤ :=
  let sample := clamp f
  toInt16 (truncTowardZero (if sample < 0 then sample * 32768 else sample * 32767))

/-! ## Byte-level serialization helpers -/

/-- JavaScript ToUint16: wrap an integer mod 2^16. -/
def toUint16 (z : ℤ) : ℕ := (z % 65536).toNat

/-- JavaScript ToUint32: wrap an integer mod 2^32. -/
def toUint32 (z : ℤ) : ℕ := (z % 4294967296).toNat

/-- Little-endian bytes of a 16-bit value (`DataView.setUint16` with
littleEndian = true). -/
def u16le (n : ℕ) : List ℕ := [n % 256, n / 256 % 256]

/-- Little-endian bytes of a 32-bit value (`DataView.setUint32` with
littleEndian = true). -/
def u32le (n : ℕ) : List ℕ := [n % 256, n / 256 % 256, n / 65536 % 256, n / 16777216 % 256]

/-- `DataView.setInt16(_, s, true)`: the sample's two little-endian
bytes. -/
def int16le (s : ℤ) : List ℕ := u16le (toUint16 s)

/-- The byte values written by `writeString` (src/utils/audio.ts lines
52-56): the char codes of an ASCII tag. -/
def asciiBytes (s : String) : List ℕ := s.data.map Char.toNat

/-- Reassemble a signed 16-bit sample from two little-endian bytes, as
viewing a byte buffer through an `Int16Array` does. -/
def int16OfBytes (lo hi : ℕ) : ℤ :=
  let u := lo % 256 + hi % 256 * 256
  if u < 32768 then (u : ℤ) else (u : ℤ) - 65536

/-- `new Int16Array(buffer)`: reinterpret a byte buffer as 16-bit signed
samples; a RangeError (here `none`) when the byte length is odd. -/
def bytesToInt16s : List ℕ → Option (List ℤ)
  | [] => some []
  | lo :: hi :: rest => (bytesToInt16s rest).map (fun ss => int16OfBytes lo hi :: ss)
  | [_] => none

/-- Value of a little-endian byte list, for reading fields back out of an
encoded blob. -/
def leVal (bs : List ℕ) : ℕ := bs.foldr (fun b acc => b % 256 + acc * 256) 0

def readU16 (bs : List ℕ) (off : ℕ) : ℕ := leVal ((bs.drop off).take 2)

def readU32 (bs : List ℕ) (off : ℕ) : ℕ := leVal ((bs.drop off).take 4)

/-! ## WAV Encoder (src/utils/audio.ts, `pcmToWav`, lines 13-50) -/

/-- A binary blob with a MIME type. -/
structure Blob where
  bytes : List ℕ
  mime : String
deriving DecidableEq, Repr

/-- The 44-byte RIFF/WAVE header written by `pcmToWav` for
`numSamples` 16-bit samples.  Channel count and sample rate are written
by `setUint16`/`setUint32`, which wrap mod 2^16 / 2^32. -/
def wavHeader (numSamples : ℕ) (sampleRate numChannels : ℤ) : List ℕ :=
  let bytesPerSample : ℤ := 2
  let blockAlign := numChannels * bytesPerSample
  let byteRate := sampleRate * blockAlign
  let dataSize := numSamples * 2
  let chunkSize := 36 + dataSize
  asciiBytes "RIFF" ++ u32le chunkSize ++ asciiBytes "WAVE" ++
  asciiBytes "fmt " ++ u32le 16 ++ u16le 1 ++ u16le (toUint16 numChannels) ++
  u32le (toUint32 sampleRate) ++ u32le (toUint32 byteRate) ++
  u16le (toUint16 blockAlign) ++ u16le 16 ++
  asciiBytes "data" ++ u32le dataSize

/-- src/utils/audio.ts `pcmToWav`: reinterpret the byte buffer as 16-bit
samples (RangeError on odd length), then emit the 44-byte header followed
by each sample's two little-endian bytes. -/
def pcmToWav (pcmData : List ℕ) (sampleRate numChannels : ℤ) : Except AudioError Blob :=
  match bytesToInt16s pcmData with
  | none => .error .oddByteLength
  | some pcmDataInt16 =>
      .ok ⟨wavHeader pcmDataInt16.length sampleRate numChannels ++
           pcmDataInt16.flatMap int16le, "audio/wav"⟩

/-! ## Track Mixer (src/utils/audio.ts, `mixAudio`, lines 92-151)

The audio-graph rendering (`OfflineAudioContext`, `AudioBufferSourceNode`
with `loop = true`, `GainNode`) is a platform collaborator that is not
part of the repository's source; its semantics are modelled from the
spec (§4.4 step 3). -/

/-- Outcome of the external network fetch of the music source; `failed`
covers both a rejected fetch and a non-ok HTTP response. -/
inductive FetchOutcome where
  | failed
  | ok (bytes : List ℕ)
deriving DecidableEq, Repr

/-- Outcome of the external audio-codec collaborator
(`decodeAudioData`): per-channel float samples at the target rate, or a
decode failure. -/
inductive MusicDecodeOutcome where
  | failed
  | ok (channels : List (List ℚ))
deriving DecidableEq, Repr

/-- Modelled from the spec: the Web Audio up-mix rule for a source feeding
the stereo destination — a mono signal is duplicated into both output
channels, a multi-channel signal feeds channel-for-channel. -/
def upmixChannel (channels : List (List ℚ)) (c : ℕ) : List ℚ :=
  if channels.length ≤ 1 then channels.headD [] else channels.getD c []

/-- Modelled from the spec: the `OfflineAudioContext` render of the graph
built in `mixAudio` (§4.4 step 3).  The context has 2 output channels and
exactly `speech.length` frames; each output sample is the sum of the
speech sample (mono speech duplicated to both channels at unity gain) and
the gain-scaled music sample, the looping music source tiling its buffer
so that output frame `i` reads music frame `i mod M`. -/
def renderMix (speech : List ℚ) (music : List (List ℚ)) (gain : ℚ) : List (List ℚ) :=
  (List.range 2).map (fun c =>
    let m := upmixChannel music c
    (List.range speech.length).map (fun i =>
      speech.getD i 0 + gain * m.getD (i % m.length) 0))

/-- src/utils/audio.ts `audioBufferToPcm` (lines 63-82): interleave the
per-channel float data frame-major, convert each sample through the
float-to-PCM16 mapping, and emit the native (little-endian) bytes of the
resulting `Int16Array`. -/
def audioBufferToPcm (channels : List (List ℚ)) : List ℕ :=
  let length := (channels.headD []).length
  let interleaved := (List.range length).flatMap (fun i => channels.map (fun ch => ch.getD i 0))
  (interleaved.map floatToPcm16).flatMap int16le

/-- src/utils/audio.ts `mixAudio`: reinterpret the speech bytes as 16-bit
samples (RangeError on odd length, before any fetch), convert to floats,
fetch and decode the music (each failure aborting the call), render the
stereo mix, and encode the result as a 24000 Hz stereo WAV. -/
def mixAudio (speechPcmData : List ℕ) (fetch : FetchOutcome)
    (music : MusicDecodeOutcome) (musicVolume : ℚ) : Except AudioError Blob :=
  match bytesToInt16s speechPcmData with
  | none => .error .oddByteLength
  | some speechDataInt16 =>
    let speechFloat := speechDataInt16.map (fun s : ℤ => (s : ℚ) / 32768)
    match fetch with
    | .failed => .error .musicFetchError
    | .ok _ =>
      match music with
      | .failed => .error .musicDecodeError
      | .ok channels =>
        let mixed := renderMix speechFloat channels musicVolume
        pcmToWav (audioBufferToPcm mixed) 24000 2

/-! ## Pipeline Orchestrator (src/App.tsx, `handleGenerateAudio`,
lines 57-70)

`selectedMusicUrl = backgroundMusic === 'custom' ? customMusicUrl :
backgroundMusic`; the mix path is taken iff `selectedMusicUrl` is truthy
(non-null, non-empty) and not the sentinel `'none'`. -/

def selectedMusicUrl (backgroundMusic : String) (customMusicUrl : Option String) :
    Option String :=
  if backgroundMusic = "custom" then customMusicUrl else some backgroundMusic

/-- The orchestrator: decode the speech payload, then either mix with
music or encode the mono 24000 Hz speech directly. -/
def assemble (base64Audio backgroundMusic : String) (customMusicUrl : Option String)
    (musicVolume : ℚ) (fetch : FetchOutcome) (music : MusicDecodeOutcome) :
    Except AudioError Blob :=
  match decode base64Audio with
  | .error e => .error e
  | .ok pcmData =>
    match selectedMusicUrl backgroundMusic customMusicUrl with
    | none => pcmToWav pcmData 24000 1
    | some url =>
      if url ≠ "" ∧ url ≠ "none" then mixAudio pcmData fetch music musicVolume
      else pcmToWav pcmData 24000 1

/-! ## Lemmas about the Sample Converter -/

theorem clamp_eq_self {q : ℚ} (h1 : -1 ≤ q) (h2 : q ≤ 1) : clamp q = q := by
  unfold clamp
  rw [min_eq_right h2, max_eq_right h1]

theorem clamp_mem (q : ℚ) : -1 ≤ clamp q ∧ clamp q ≤ 1 := by
  unfold clamp
  constructor
  · exact le_max_left _ _
  · exact max_le (by norm_num) (min_le_left _ _)

theorem truncTowardZero_intCast (n : ℤ) : truncTowardZero (n : ℚ) = n := by
  unfold truncTowardZero
  split
  · exact Int.ceil_intCast n
  · exact Int.floor_intCast n

theorem toInt16_eq_self {n : ℤ} (h1 : -32768 ≤ n) (h2 : n ≤ 32767) : toInt16 n = n := by
  unfold toInt16
  omega

/-- The scaled-and-truncated value of a clamped sample always lies in the
signed 16-bit range, so the `Int16Array` store never wraps. -/
theorem scaled_trunc_bounds (f : ℚ) :
    -32768 ≤ truncTowardZero (if clamp f < 0 then clamp f * 32768 else clamp f * 32767) ∧
    truncTowardZero (if clamp f < 0 then clamp f * 32768 else clamp f * 32767) ≤ 32767 := by
  obtain ⟨hlo, hhi⟩ := clamp_mem f
  split
  · rename_i hneg
    unfold truncTowardZero
    rw [if_pos (by nlinarith)]
    constructor
    · have h1 : ((-32768 : ℤ) : ℚ) ≤ clamp f * 32768 := by push_cast; nlinarith
      calc (-32768 : ℤ) = ⌈((-32768 : ℤ) : ℚ)⌉ := (Int.ceil_intCast _).symm
        _ ≤ ⌈clamp f * 32768⌉ := Int.ceil_le_ceil h1
    · have h1 : clamp f * 32768 ≤ ((0 : ℤ) : ℚ) := by push_cast; nlinarith
      calc ⌈clamp f * 32768⌉ ≤ (0 : ℤ) := Int.ceil_le.mpr h1
        _ ≤ 32767 := by norm_num
  · rename_i hpos
    push_neg at hpos
    unfold truncTowardZero
    rw [if_neg (by push_neg; nlinarith)]
    constructor
    · have h1 : ((0 : ℤ) : ℚ) ≤ clamp f * 32767 := by push_cast; nlinarith
      calc (-32768 : ℤ) ≤ 0 := by norm_num
        _ ≤ ⌊clamp f * 32767⌋ := Int.le_floor.mpr h1
    · have h1 : clamp f * 32767 ≤ ((32767 : ℤ) : ℚ) := by push_cast; nlinarith
      exact Int.floor_le_floor h1 |>.trans_eq (Int.floor_intCast _)

/-- The wrap into the 16-bit store is the identity: `floatToPcm16` is just
clamp, scale, truncate. -/
theorem floatToPcm16_eq_trunc (f : ℚ) :
    floatToPcm16 f =
      truncTowardZero (if clamp f < 0 then clamp f * 32768 else clamp f * 32767) := by
  obtain ⟨h1, h2⟩ := scaled_trunc_bounds f
  unfold floatToPcm16
  exact toInt16_eq_self h1 h2

theorem floatToPcm16_bounds (f : ℚ) :
    -32768 ≤ floatToPcm16 f ∧ floatToPcm16 f ≤ 32767 := by
  rw [floatToPcm16_eq_trunc]
  exact scaled_trunc_bounds f

theorem floatToPcm16_clamps (f : ℚ) : floatToPcm16 f = floatToPcm16 (clamp f) := by
  unfold floatToPcm16
  obtain ⟨h1, h2⟩ := clamp_mem f
  rw [clamp_eq_self h1 h2]

theorem floatToPcm16_of_one_le {f : ℚ} (h : 1 ≤ f) : floatToPcm16 f = 32767 := by
  have hc : clamp f = 1 := by
    unfold clamp
    rw [min_eq_left h, max_eq_right (by norm_num)]
  rw [floatToPcm16_eq_trunc, hc, if_neg (by norm_num), one_mul]
  have : ((32767 : ℤ) : ℚ) = (32767 : ℚ) := by push_cast; ring
  rw [← this, truncTowardZero_intCast]

theorem floatToPcm16_of_le_neg_one {f : ℚ} (h : f ≤ -1) : floatToPcm16 f = -32768 := by
  have hc : clamp f = -1 := by
    unfold clamp
    rw [min_eq_right (by linarith), max_eq_left h]
  rw [floatToPcm16_eq_trunc, hc, if_pos (by norm_num)]
  have : ((-1 : ℚ)) * 32768 = ((-32768 : ℤ) : ℚ) := by push_cast; ring
  rw [this, truncTowardZero_intCast]

/-- The exact value of the PCM16 → float → PCM16 round trip: the identity
on `[-32768, 0]`, but one less than the input on `[1, 32767]`. -/
theorem roundtrip_eq {s : ℤ} (h1 : -32768 ≤ s) (h2 : s ≤ 32767) :
    floatToPcm16 (pcm16ToFloat s) = if 0 < s then s - 1 else s := by
  have h32 : (0 : ℚ) < 32768 := by norm_num
  have hsl : ((-32768 : ℤ) : ℚ) ≤ (s : ℚ) := by exact_mod_cast h1
  have hsh : (s : ℚ) ≤ ((32767 : ℤ) : ℚ) := by exact_mod_cast h2
  have hlo : -1 ≤ (s : ℚ) / 32768 := by
    rw [le_div_iff₀ h32]
    push_cast at hsl ⊢
    linarith
  have hhi : (s : ℚ) / 32768 ≤ 1 := by
    rw [div_le_one h32]
    push_cast at hsh ⊢
    linarith
  unfold pcm16ToFloat
  rw [floatToPcm16_eq_trunc, clamp_eq_self hlo hhi]
  rcases lt_trichotomy s 0 with hneg | hzero | hpos
  · have hq : (s : ℚ) / 32768 < 0 := by
      apply div_neg_of_neg_of_pos _ h32
      exact_mod_cast hneg
    rw [if_pos hq, div_mul_cancel₀ _ (ne_of_gt h32), truncTowardZero_intCast]
    rw [if_neg (by omega)]
  · subst hzero
    norm_num [truncTowardZero]
  · have hq : ¬ ((s : ℚ) / 32768 < 0) := by
      push_neg
      positivity
    rw [if_neg hq, div_mul_eq_mul_div]
    have hcast : (s : ℚ) * 32767 / 32768 = ((s * 32767 : ℤ) : ℚ) / ((32768 : ℕ) : ℚ) := by
      push_cast
      ring
    have hfloor : ⌊(s : ℚ) * 32767 / 32768⌋ = (s * 32767) / (32768 : ℤ) := by
      rw [hcast, Rat.floor_intCast_div_natCast]
      norm_num
    have htz : truncTowardZero ((s : ℚ) * 32767 / 32768) = (s * 32767) / (32768 : ℤ) := by
      unfold truncTowardZero
      rw [if_neg (by push_neg; positivity)]
      exact hfloor
    rw [htz, if_pos hpos]
    omega

/-! ## Claim C1 -/

/-- C1 counterexample: the round trip is not the identity on positive
samples — the sample 1 maps to the float 1/32768 and back to 0, not 1. -/
theorem C1_roundtrip_counterexample :
    floatToPcm16 (pcm16ToFloat 1) = 0 ∧ (0 : ℤ) ≠ 1 := by
  constructor
  · norm_num [floatToPcm16, pcm16ToFloat, clamp, truncTowardZero, toInt16, min_def, max_def]
  · norm_num

/-- C1 (amended): converting an int16 sample `s` to a float via
`s / 32768.0` and back through the float-to-PCM16 mapping yields `s`
exactly for every `s` in `[-32768, 0]` — in particular `-32768 ↦ -1.0 ↦
-32768` exactly — but yields `s - 1` for every `s` in `[1, 32767]`: the
asymmetric positive scale factor 32767/32768 makes every positive sample
drift down by one. -/
theorem C1_roundtrip (s : ℤ) (h1 : -32768 ≤ s) (h2 : s ≤ 32767) :
    floatToPcm16 (pcm16ToFloat s) = if 0 < s then s - 1 else s :=
  roundtrip_eq h1 h2

/-- C1 witness: the round-trip value at the most negative sample and at a
positive sample. -/
theorem C1_roundtrip_witness :
    floatToPcm16 (pcm16ToFloat (-32768)) = -32768 ∧
    floatToPcm16 (pcm16ToFloat 5) = 4 := by
  constructor
  · have h := C1_roundtrip (-32768) (by norm_num) (by norm_num)
    simpa using h
  · have h := C1_roundtrip 5 (by norm_num) (by norm_num)
    simpa using h

/-! ## Claim C2 -/

/-- C2: the float-to-PCM16 conversion clamps its input to [-1, 1] first
(out-of-range inputs saturate at -32768 / 32767, they never wrap), maps
the clamped value `v` to `v * 32768` when negative and `v * 32767`
otherwise, truncated toward zero (the 16-bit store wraps nothing, being
the identity on the already-in-range result), and its positive output
never exceeds 32767. -/
theorem C2_floatToPcm16_spec (f : ℚ) :
    floatToPcm16 f = floatToPcm16 (clamp f) ∧
    floatToPcm16 f =
      truncTowardZero (if clamp f < 0 then clamp f * 32768 else clamp f * 32767) ∧
    (1 ≤ f → floatToPcm16 f = 32767) ∧
    (f ≤ -1 → floatToPcm16 f = -32768) ∧
    -32768 ≤ floatToPcm16 f ∧ floatToPcm16 f ≤ 32767 :=
  ⟨floatToPcm16_clamps f, floatToPcm16_eq_trunc f,
   fun h => floatToPcm16_of_one_le h, fun h => floatToPcm16_of_le_neg_one h,
   (floatToPcm16_bounds f).1, (floatToPcm16_bounds f).2⟩

/-- C2 witness: the conversion at the out-of-range input 2 saturates at
32767, and at -2 saturates at -32768. -/
theorem C2_floatToPcm16_witness :
    floatToPcm16 2 = 32767 ∧ floatToPcm16 (-2) = -32768 :=
  ⟨(C2_floatToPcm16_spec 2).2.2.1 (by norm_num),
   (C2_floatToPcm16_spec (-2)).2.2.2.1 (by norm_num)⟩

/-! ## Lemmas about byte-level serialization -/

theorem leVal_u32le (m : ℕ) : leVal (u32le m) = m % 4294967296 := by
  simp [leVal, u32le]
  omega

theorem leVal_u16le (m : ℕ) : leVal (u16le m) = m % 65536 := by
  simp [leVal, u16le]
  omega

theorem int16OfBytes_int16le {s : ℤ} (h1 : -32768 ≤ s) (h2 : s ≤ 32767) :
    int16OfBytes (toUint16 s % 256) (toUint16 s / 256 % 256) = s := by
  unfold int16OfBytes toUint16
  dsimp only
  split <;> omega

theorem int16le_int16OfBytes {lo hi : ℕ} (h1 : lo < 256) (h2 : hi < 256) :
    int16le (int16OfBytes lo hi) = [lo, hi] := by
  unfold int16le int16OfBytes u16le toUint16
  dsimp only
  split <;> (simp only [List.cons.injEq, and_true]; constructor <;> omega)

theorem int16OfBytes_bounds (lo hi : ℕ) :
    -32768 ≤ int16OfBytes lo hi ∧ int16OfBytes lo hi ≤ 32767 := by
  unfold int16OfBytes
  dsimp only
  split <;> omega

/-- Reinterpreting a serialized sample list recovers the samples, provided
every sample is in the signed 16-bit range. -/
theorem bytesToInt16s_flatMap (ss : List ℤ) (h : ∀ s ∈ ss, -32768 ≤ s ∧ s ≤ 32767) :
    bytesToInt16s (ss.flatMap int16le) = some ss := by
  induction ss with
  | nil => rfl
  | cons s rest ih =>
    obtain ⟨hs1, hs2⟩ := h s (List.mem_cons_self s rest)
    have hrest := ih (fun t ht => h t (List.mem_cons_of_mem s ht))
    have hcons : (s :: rest).flatMap int16le =
        toUint16 s % 256 :: toUint16 s / 256 % 256 :: rest.flatMap int16le := rfl
    rw [hcons]
    show (bytesToInt16s (rest.flatMap int16le)).map _ = _
    rw [hrest, Option.map_some']
    rw [int16OfBytes_int16le hs1 hs2]

theorem flatMap_int16le_length (ss : List ℤ) : (ss.flatMap int16le).length = 2 * ss.length := by
  induction ss with
  | nil => rfl
  | cons s rest ih =>
    have hcons : (s :: rest).flatMap int16le =
        toUint16 s % 256 :: toUint16 s / 256 % 256 :: rest.flatMap int16le := rfl
    rw [hcons]
    simp [ih]
    omega

/-- Reinterpretation as 16-bit samples fails exactly on odd byte
lengths. -/
theorem bytesToInt16s_eq_none_iff : ∀ (bs : List ℕ), bytesToInt16s bs = none ↔ bs.length % 2 = 1
  | [] => by simp [bytesToInt16s]
  | [b] => by simp [bytesToInt16s]
  | lo :: hi :: rest => by
    have ih := bytesToInt16s_eq_none_iff rest
    simp only [bytesToInt16s, Option.map_eq_none', ih, List.length_cons]
    omega

/-- Parsing an even-length buffer of genuine bytes succeeds, and
re-serializing the parsed samples restores the buffer exactly. -/
theorem bytesToInt16s_spec : ∀ (bs : List ℕ), (∀ b ∈ bs, b < 256) → bs.length % 2 = 0 →
    ∃ ss, bytesToInt16s bs = some ss ∧ ss.flatMap int16le = bs ∧ 2 * ss.length = bs.length ∧
      ∀ s ∈ ss, -32768 ≤ s ∧ s ≤ 32767
  | [], _, _ => ⟨[], rfl, rfl, rfl, by simp⟩
  | [b], _, hev => by simp at hev
  | lo :: hi :: rest, hlt, hev => by
    have hlo : lo < 256 := hlt lo (by simp)
    have hhi : hi < 256 := hlt hi (by simp)
    obtain ⟨ss, hp, hs, hl, hr⟩ := bytesToInt16s_spec rest
      (fun b hb => hlt b (by simp [hb]))
      (by simp at hev ⊢; omega)
    refine ⟨int16OfBytes lo hi :: ss, ?_, ?_, ?_, ?_⟩
    · show (bytesToInt16s rest).map _ = _
      rw [hp]
      rfl
    · show int16le (int16OfBytes lo hi) ++ ss.flatMap int16le = _
      rw [int16le_int16OfBytes hlo hhi, hs]
      rfl
    · simp at hl ⊢
      omega
    · intro s hsmem
      rcases List.mem_cons.mp hsmem with hhead | htail
      · subst hhead
        exact int16OfBytes_bounds lo hi
      · exact hr s htail

/-! ## Lemmas about the WAV encoder -/

theorem wavHeader_length (n : ℕ) (sr nc : ℤ) : (wavHeader n sr nc).length = 44 := rfl

/-- On an even-length buffer `pcmToWav` succeeds and returns the header
followed by the re-serialized samples (which equal the input bytes). -/
theorem pcmToWav_ok {bs : List ℕ} (sr nc : ℤ) (hlt : ∀ b ∈ bs, b < 256)
    (hev : bs.length % 2 = 0) :
    ∃ ss, bytesToInt16s bs = some ss ∧ 2 * ss.length = bs.length ∧
      pcmToWav bs sr nc = .ok ⟨wavHeader ss.length sr nc ++ bs, "audio/wav"⟩ := by
  obtain ⟨ss, hp, hs, hl, _⟩ := bytesToInt16s_spec bs hlt hev
  refine ⟨ss, hp, hl, ?_⟩
  unfold pcmToWav
  rw [hp]
  simp [hs]

/-! ## Claim C3 -/

set_option maxHeartbeats 1600000 in
/-- C3: for a PCM16 buffer of `N` in-range samples with `channel_count ≥ 1`
and `sample_rate > 0` (all fields fitting their header slots), the encoded
blob has exactly `44 + N * 2` bytes; carries the ASCII tags RIFF, WAVE,
"fmt " and data at offsets 0, 8, 12 and 36; stores ChunkSize `36 + N*2`,
Subchunk2Size `N*2`, SampleRate, ByteRate `SampleRate * NumChannels * 2`,
BlockAlign `NumChannels * 2`, BitsPerSample 16; and its bytes from offset
44 on are exactly the samples' little-endian bytes. -/
theorem C3_pcmToWav_header (samples : List ℤ) (sr nc : ℤ) (N : ℕ)
    (hN : samples.length = N)
    (hrange : ∀ s ∈ samples, -32768 ≤ s ∧ s ≤ 32767)
    (hnc : 1 ≤ nc) (hsr : 0 < sr)
    (hncFit : nc * 2 < 65536) (hsrFit : sr < 4294967296)
    (hbrFit : sr * nc * 2 < 4294967296) (hdsFit : 36 + N * 2 < 4294967296) :
    ∃ blob, pcmToWav (samples.flatMap int16le) sr nc = .ok blob ∧
      blob.bytes.length = 44 + N * 2 ∧
      blob.bytes.take 4 = asciiBytes "RIFF" ∧
      (blob.bytes.drop 8).take 4 = asciiBytes "WAVE" ∧
      (blob.bytes.drop 12).take 4 = asciiBytes "fmt " ∧
      (blob.bytes.drop 36).take 4 = asciiBytes "data" ∧
      readU32 blob.bytes 4 = 36 + N * 2 ∧
      readU32 blob.bytes 40 = N * 2 ∧
      readU32 blob.bytes 16 = 16 ∧
      readU16 blob.bytes 20 = 1 ∧
      readU16 blob.bytes 22 = nc.toNat ∧
      readU32 blob.bytes 24 = sr.toNat ∧
      readU32 blob.bytes 28 = (sr * nc * 2).toNat ∧
      readU16 blob.bytes 32 = (nc * 2).toNat ∧
      readU16 blob.bytes 34 = 16 ∧
      blob.bytes.drop 44 = samples.flatMap int16le := by
  subst hN
  have hparse := bytesToInt16s_flatMap samples hrange
  refine ⟨⟨wavHeader samples.length sr nc ++ samples.flatMap int16le, "audio/wav"⟩, ?_, ?_,
    rfl, rfl, rfl, rfl, ?_, ?_, ?_, ?_, ?_, ?_, ?_, ?_, ?_, rfl⟩
  · unfold pcmToWav
    rw [hparse]
  · rw [List.length_append, wavHeader_length, flatMap_int16le_length]
    omega
  · show leVal (u32le (36 + samples.length * 2)) = 36 + samples.length * 2
    rw [leVal_u32le]
    omega
  · show leVal (u32le (samples.length * 2)) = samples.length * 2
    rw [leVal_u32le]
    omega
  · show leVal (u32le 16) = 16
    rw [leVal_u32le]
  · show leVal (u16le 1) = 1
    rw [leVal_u16le]
  · show leVal (u16le (toUint16 nc)) = nc.toNat
    rw [leVal_u16le]
    unfold toUint16
    omega
  · show leVal (u32le (toUint32 sr)) = sr.toNat
    rw [leVal_u32le]
    unfold toUint32
    omega
  · show leVal (u32le (toUint32 (sr * (nc * 2)))) = (sr * nc * 2).toNat
    rw [leVal_u32le]
    unfold toUint32
    have hassoc : sr * (nc * 2) = sr * nc * 2 := by ring
    rw [hassoc]
    have hpos : 0 ≤ sr * nc * 2 := by positivity
    omega
  · show leVal (u16le (toUint16 (nc * 2))) = (nc * 2).toNat
    rw [leVal_u16le]
    unfold toUint16
    omega
  · show leVal (u16le 16) = 16
    rw [leVal_u16le]

/-- C3 witness: the header properties instantiated at two concrete
samples, 24000 Hz, one channel. -/
theorem C3_pcmToWav_header_witness :
    (∀ s ∈ [(1 : ℤ), -1], -32768 ≤ s ∧ s ≤ 32767) ∧
    ∃ blob, pcmToWav ([(1 : ℤ), -1].flatMap int16le) 24000 1 = .ok blob ∧
      blob.bytes.length = 44 + 2 * 2 ∧
      blob.bytes.take 4 = asciiBytes "RIFF" ∧
      (blob.bytes.drop 8).take 4 = asciiBytes "WAVE" ∧
      (blob.bytes.drop 12).take 4 = asciiBytes "fmt " ∧
      (blob.bytes.drop 36).take 4 = asciiBytes "data" ∧
      readU32 blob.bytes 4 = 36 + 2 * 2 ∧
      readU32 blob.bytes 40 = 2 * 2 ∧
      readU32 blob.bytes 16 = 16 ∧
      readU16 blob.bytes 20 = 1 ∧
      readU16 blob.bytes 22 = (1 : ℤ).toNat ∧
      readU32 blob.bytes 24 = (24000 : ℤ).toNat ∧
      readU32 blob.bytes 28 = ((24000 : ℤ) * 1 * 2).toNat ∧
      readU16 blob.bytes 32 = ((1 : ℤ) * 2).toNat ∧
      readU16 blob.bytes 34 = 16 ∧
      blob.bytes.drop 44 = [(1 : ℤ), -1].flatMap int16le := by
  refine ⟨by decide, ?_⟩
  exact C3_pcmToWav_header [1, -1] 24000 1 2 (by decide) (by decide) (by decide)
    (by decide) (by decide) (by decide) (by decide) (by decide)

/-! ## Claim C9 -/

/-- C9 counterexample: `pcmToWav` called with channel count 0 and sample
rate 0 — both violating the stated contract — does not fail: it returns a
blob. -/
theorem C9_no_validation_counterexample : (pcmToWav [] 0 0).isOk = true := rfl

/-- C9 (amended): the WAV encoder performs no validation of its channel
count or sample rate at all — for every channel count and sample rate,
including those violating the `channel_count ≥ 1` / `sample_rate > 0`
contract, it returns a blob (out-of-range values are simply wrapped into
their header fields); the only input condition that makes it fail is a
byte buffer of odd length. -/
theorem C9_pcmToWav_no_validation (pcm : List ℕ) (sr nc : ℤ) :
    (pcmToWav pcm sr nc).isOk = true ↔ pcm.length % 2 = 0 := by
  unfold pcmToWav
  rcases hcase : bytesToInt16s pcm with _ | ss
  · have hodd := (bytesToInt16s_eq_none_iff pcm).mp hcase
    simp [Except.isOk, Except.toBool]
    omega
  · have hnone : ¬ (bytesToInt16s pcm = none) := by simp [hcase]
    have hev := (bytesToInt16s_eq_none_iff pcm).not.mp hnone
    simp [Except.isOk, Except.toBool]
    omega

/-- C9 witness: at channel count 0 and sample rate -1 the encoder still
returns a blob on an even-length buffer. -/
theorem C9_pcmToWav_no_validation_witness :
    (pcmToWav [7, 7] (-1) 0).isOk = true :=
  (C9_pcmToWav_no_validation [7, 7] (-1) 0).mpr (by decide)

/-! ## Claim C10 -/

/-- C10: on a byte buffer of odd length both the WAV encoder and the mix
operation fail with the reinterpretation error — the `Int16Array` view
requires an even byte length — so only payloads decoding to a whole
number of 16-bit samples flow through the pipeline. -/
theorem C10_odd_byte_length (bs : List ℕ) (sr nc : ℤ) (fetch : FetchOutcome)
    (music : MusicDecodeOutcome) (vol : ℚ) (hodd : bs.length % 2 = 1) :
    pcmToWav bs sr nc = .error .oddByteLength ∧
    mixAudio bs fetch music vol = .error .oddByteLength := by
  have hnone : bytesToInt16s bs = none := (bytesToInt16s_eq_none_iff bs).mpr hodd
  constructor
  · unfold pcmToWav
    rw [hnone]
  · unfold mixAudio
    rw [hnone]

/-- C10 witness: the single-byte buffer `[0]` makes both operations
fail. -/
theorem C10_odd_byte_length_witness :
    pcmToWav [0] 24000 1 = .error .oddByteLength ∧
    mixAudio [0] .failed .failed (1 / 2) = .error .oddByteLength :=
  C10_odd_byte_length [0] 24000 1 .failed .failed (1 / 2) (by decide)

/-! ## Lemmas about the Byte Decoder -/

theorem b64Lookup_isSome (cs : List Char) :
    (b64Lookup cs).isSome = cs.all (fun c => (b64Index c).isSome) := by
  induction cs with
  | nil => rfl
  | cons c rest ih =>
    rw [List.all_cons]
    show (match b64Index c, b64Lookup rest with
      | some v, some vs => some (v :: vs)
      | _, _ => none).isSome = _
    rcases hc : b64Index c with _ | v
    · simp [hc]
    · rcases hrest : b64Lookup rest with _ | vs <;>
        (rw [hrest] at ih; simpa [hc] using ih)

theorem atob_isSome_iff (s : String) : (atob s).isSome = isValidBase64 s := by
  unfold atob isValidBase64
  dsimp only
  split
  · rename_i h14
    simp [h14]
  · rename_i h14
    simp [h14, b64Lookup_isSome]

/-- Every byte produced by the base64 bit regrouping is below 256. -/
theorem b64Sextets_lt : ∀ (l : List ℕ), ∀ b ∈ b64Sextets l, b < 256
  | [] => by simp [b64Sextets]
  | [a] => by simp [b64Sextets]
  | [a, b] => by
    simp only [b64Sextets, List.mem_singleton]
    omega
  | [a, b, c] => by
    intro x hx
    simp only [b64Sextets, List.mem_cons, List.mem_singleton, List.not_mem_nil, or_false] at hx
    rcases hx with h | h <;> omega
  | a :: b :: c :: d :: rest => by
    intro x hx
    have ih := b64Sextets_lt rest
    simp only [b64Sextets, List.mem_cons] at hx
    rcases hx with h | h | h | h
    · omega
    · omega
    · omega
    · exact ih x h

/-- Every byte the Byte Decoder returns is a genuine byte value. -/
theorem decode_bytes_lt {s : String} {bs : List ℕ} (h : decode s = .ok bs) :
    ∀ b ∈ bs, b < 256 := by
  unfold decode at h
  rcases ha : atob s with _ | v
  · rw [ha] at h
    exact absurd h (by simp)
  · rw [ha] at h
    have hv : v = bs := by
      simpa using h
    subst hv
    unfold atob at ha
    dsimp only at ha
    split at ha
    · exact absurd ha (by simp)
    · rcases hm : b64Lookup (stripPadding (s.data.filter (fun c => !isB64Whitespace c)))
        with _ | sx
      · rw [hm] at ha
        exact absurd ha (by simp)
      · rw [hm] at ha
        simp only [Option.map_some', Option.some.injEq] at ha
        rw [← ha]
        exact b64Sextets_lt sx

/-! ## Claim C4 -/

/-- C4: the byte decoder fails with `MalformedEncodingError` exactly on
input that is not valid base64; on valid base64 it returns a byte buffer,
and it is deterministic — being a pure function of its input, two calls
on the same input return equal buffers. -/
theorem C4_decode_spec (s : String) :
    (isValidBase64 s = false → decode s = .error .malformedEncoding) ∧
    (isValidBase64 s = true → ∃ bs, decode s = .ok bs) ∧
    (∀ bs₁ bs₂, decode s = .ok bs₁ → decode s = .ok bs₂ → bs₁ = bs₂) := by
  have hiff := atob_isSome_iff s
  refine ⟨?_, ?_, ?_⟩
  · intro hbad
    rw [hbad] at hiff
    unfold decode
    rcases ha : atob s with _ | v
    · rfl
    · rw [ha] at hiff
      exact absurd hiff (by simp)
  · intro hgood
    rw [hgood] at hiff
    unfold decode
    rcases ha : atob s with _ | v
    · rw [ha] at hiff
      exact absurd hiff (by simp)
    · exact ⟨v, rfl⟩
  · intro bs₁ bs₂ h1 h2
    rw [h1] at h2
    exact Except.ok.inj h2

/-- C4 witness: the one-character string "A" is rejected as malformed,
and the valid base64 string "AAA=" decodes successfully. -/
theorem C4_decode_witness :
    decode "A" = .error .malformedEncoding ∧ ∃ bs, decode "AAA=" = .ok bs :=
  ⟨(C4_decode_spec "A").1 (by decide), (C4_decode_spec "AAA=").2.1 (by decide)⟩

/-! ## Lemmas about the orchestrator -/

/-- When no usable music selection is present — the selection resolves to
nothing, to the sentinel "none", or to the falsy empty string — the
orchestrator takes the direct path. -/
theorem assemble_direct {payload : String} {bytes : List ℕ} (bg : String)
    (cust : Option String) (vol : ℚ) (fetch : FetchOutcome) (music : MusicDecodeOutcome)
    (hdec : decode payload = .ok bytes)
    (hsel : selectedMusicUrl bg cust = none ∨ selectedMusicUrl bg cust = some "none" ∨
      selectedMusicUrl bg cust = some "") :
    assemble payload bg cust vol fetch music = pcmToWav bytes 24000 1 := by
  unfold assemble
  rw [hdec]
  rcases hsel with h | h | h <;> rw [h]
  · dsimp only
    rw [if_neg (by simp)]
  · dsimp only
    rw [if_neg (by simp)]

/-! ## Claim C5 -/

set_option maxHeartbeats 1600000 in
/-- C5: on the direct path (no music selected — the custom choice with no
uploaded file — or the sentinel "none"), `assemble` on a payload decoding
to `N` 16-bit samples yields a WAV blob with NumChannels 1, SampleRate
24000 and Subchunk2Size `N * 2`, whose data bytes are exactly the decoded
speech bytes. -/
theorem C5_direct_path (payload : String) (bytes : List ℕ) (N : ℕ) (bg : String)
    (cust : Option String) (vol : ℚ) (fetch : FetchOutcome) (music : MusicDecodeOutcome)
    (hdec : decode payload = .ok bytes)
    (hlen : bytes.length = 2 * N)
    (hfit : 36 + N * 2 < 4294967296)
    (hsel : bg = "none" ∨ (bg = "custom" ∧ cust = none)) :
    ∃ blob, assemble payload bg cust vol fetch music = .ok blob ∧
      readU16 blob.bytes 22 = 1 ∧
      readU32 blob.bytes 24 = 24000 ∧
      readU32 blob.bytes 40 = N * 2 ∧
      blob.bytes.drop 44 = bytes := by
  have hdirect : assemble payload bg cust vol fetch music = pcmToWav bytes 24000 1 := by
    apply assemble_direct bg cust vol fetch music hdec
    rcases hsel with rfl | ⟨rfl, rfl⟩
    · right
      left
      rfl
    · left
      rfl
  have hlt := decode_bytes_lt hdec
  obtain ⟨ss, hp, hl, hok⟩ := pcmToWav_ok (24000 : ℤ) 1 hlt (by omega)
  have hssN : ss.length = N := by omega
  subst hssN
  refine ⟨⟨wavHeader ss.length 24000 1 ++ bytes, "audio/wav"⟩, by rw [hdirect, hok], ?_, ?_, ?_, rfl⟩
  · show leVal (u16le (toUint16 1)) = 1
    rw [leVal_u16le]
    rfl
  · show leVal (u32le (toUint32 24000)) = 24000
    rw [leVal_u32le]
    rfl
  · show leVal (u32le (ss.length * 2)) = ss.length * 2
    rw [leVal_u32le]
    omega

/-- C5 witness: the payload "AAAA" decodes to three zero bytes — odd, so
use "AAA=" with two bytes (N = 1) — assembled with the sentinel "none"
selection. -/
theorem C5_direct_path_witness :
    decode "AAA=" = .ok [0, 0] ∧
    ∃ blob, assemble "AAA=" "none" none (3 / 20) .failed .failed = .ok blob ∧
      readU16 blob.bytes 22 = 1 ∧
      readU32 blob.bytes 24 = 24000 ∧
      readU32 blob.bytes 40 = 1 * 2 ∧
      blob.bytes.drop 44 = [0, 0] :=
  ⟨rfl, C5_direct_path "AAA=" [0, 0] 1 "none" none (3 / 20) .failed .failed rfl
    (by decide) (by decide) (Or.inl rfl)⟩

/-! ## Lemmas about the Track Mixer -/

theorem flatMap_const_length {α β : Type} (l : List α) (f : α → List β) (k : ℕ)
    (h : ∀ a ∈ l, (f a).length = k) : (l.flatMap f).length = k * l.length := by
  induction l with
  | nil => simp
  | cons a rest ih =>
    rw [List.flatMap_cons, List.length_append, h a (by simp),
      ih (fun b hb => h b (by simp [hb])), List.length_cons]
    ring

/-- The rendered sample formula: output channel `c`, frame `i` is the
speech sample plus the gain-scaled, looped music sample. -/
theorem renderMix_sample (speech : List ℚ) (music : List (List ℚ)) (gain : ℚ)
    {c i : ℕ} (hc : c < 2) (hi : i < speech.length) :
    ((renderMix speech music gain).getD c []).getD i 0 =
      speech.getD i 0 +
        gain * (upmixChannel music c).getD (i % (upmixChannel music c).length) 0 := by
  unfold renderMix
  simp only [List.getD_eq_getElem?_getD]
  rw [List.getElem?_map, List.getElem?_range hc]
  simp only [Option.map_some', Option.getD_some]
  rw [List.getElem?_map, List.getElem?_range hi]
  simp

theorem upmixChannel_length {music : List (List ℚ)} {M : ℕ}
    (hM : ∀ ch ∈ music, ch.length = M) (hne : music ≠ []) {c : ℕ} (hc : c < 2) :
    (upmixChannel music c).length = M := by
  unfold upmixChannel
  split
  · rcases music with _ | ⟨ch, rest⟩
    · exact absurd rfl hne
    · exact hM ch (by simp)
  · rename_i h
    push_neg at h
    have hcl : c < music.length := by omega
    rw [List.getD_eq_getElem?_getD, List.getElem?_eq_getElem hcl, Option.getD_some]
    exact hM _ (List.getElem_mem hcl)

/-! ## Claim C6 -/

set_option maxHeartbeats 1600000 in
/-- C6: for a speech buffer of `N` samples and decoded music of `M` frames
per channel, the render has 2 channels of exactly `N` frames each —
regardless of `M` — and output frame `i` reads music frame `i mod M`, so
music shorter than the speech is tiled exactly from its start and music
longer than the speech is truncated to the first `N` frames; the final
mixed blob holds exactly `N` stereo frames (`44 + N * 4` bytes). -/
theorem C6_mix_looping (speechBytes : List ℕ) (ss : List ℤ) (mb : List ℕ)
    (music : List (List ℚ)) (vol : ℚ) (N M : ℕ)
    (hparse : bytesToInt16s speechBytes = some ss)
    (hN : ss.length = N)
    (hM : ∀ ch ∈ music, ch.length = M) (hne : music ≠ []) :
    (renderMix (ss.map fun s : ℤ => (s : ℚ) / 32768) music vol).length = 2 ∧
    (∀ out ∈ renderMix (ss.map fun s : ℤ => (s : ℚ) / 32768) music vol, out.length = N) ∧
    (∀ c, c < 2 → ∀ i, i < N →
      ((renderMix (ss.map fun s : ℤ => (s : ℚ) / 32768) music vol).getD c []).getD i 0 =
        (ss.map fun s : ℤ => (s : ℚ) / 32768).getD i 0 +
          vol * (upmixChannel music c).getD (i % M) 0) ∧
    ∃ blob, mixAudio speechBytes (.ok mb) (.ok music) vol = .ok blob ∧
      blob.bytes.length = 44 + N * 4 := by
  subst hN
  refine ⟨by unfold renderMix; simp, ?_, ?_, ?_⟩
  · intro out hout
    unfold renderMix at hout
    simp only [List.mem_map, List.mem_range] at hout
    obtain ⟨c, _, rfl⟩ := hout
    simp
  · intro c hc i hi
    have hlen := upmixChannel_length hM hne hc
    have hi' : i < (ss.map fun s : ℤ => (s : ℚ) / 32768).length := by
      simpa using hi
    rw [renderMix_sample _ _ _ hc hi', hlen]
  · unfold mixAudio
    rw [hparse]
    dsimp only
    set sf := ss.map (fun s : ℤ => (s : ℚ) / 32768) with hsf
    set chans := renderMix sf music vol with hchans
    set L := (chans.headD []).length with hL
    set inter := (List.range L).flatMap (fun i => chans.map (fun ch => ch.getD i 0)) with hinter
    have habp : audioBufferToPcm chans = (inter.map floatToPcm16).flatMap int16le := rfl
    have hrange2 : ∀ s ∈ inter.map floatToPcm16, -32768 ≤ s ∧ s ≤ 32767 := by
      intro s hs
      rcases List.mem_map.mp hs with ⟨q, _, rfl⟩
      exact floatToPcm16_bounds q
    have hparse2 := bytesToInt16s_flatMap (inter.map floatToPcm16) hrange2
    have hhead : chans.headD [] = (List.range sf.length).map
        (fun i => sf.getD i 0 +
          vol * ((upmixChannel music 0).getD (i % (upmixChannel music 0).length) 0)) := rfl
    have hLN : L = ss.length := by
      rw [hL, hhead]
      simp [hsf]
    have hchanlen : ∀ a ∈ List.range L, (chans.map (fun ch => ch.getD a 0)).length = 2 := by
      intro a _
      rw [List.length_map, hchans]
      unfold renderMix
      simp
    have hinterlen : inter.length = 2 * ss.length := by
      rw [hinter, flatMap_const_length _ _ 2 hchanlen, List.length_range, hLN]
    refine ⟨⟨wavHeader (inter.map floatToPcm16).length 24000 2 ++
        (inter.map floatToPcm16).flatMap int16le, "audio/wav"⟩, ?_, ?_⟩
    · rw [habp]
      unfold pcmToWav
      rw [hparse2]
    · show (wavHeader (inter.map floatToPcm16).length 24000 2 ++
        (inter.map floatToPcm16).flatMap int16le).length = 44 + ss.length * 4
      rw [List.length_append, wavHeader_length, flatMap_int16le_length, List.length_map,
        hinterlen]
      ring

/-- C6 witness: two speech samples mixed with a one-frame mono music
channel — the music tiles across both output frames and the blob holds
two stereo frames. -/
theorem C6_mix_looping_witness :
    bytesToInt16s [0, 0, 0, 0] = some [0, 0] ∧
    ((renderMix ([(0 : ℤ), 0].map fun s : ℤ => (s : ℚ) / 32768) [[1 / 2]] (1 / 4)).length = 2 ∧
     (∀ out ∈ renderMix ([(0 : ℤ), 0].map fun s : ℤ => (s : ℚ) / 32768) [[1 / 2]] (1 / 4),
        out.length = 2) ∧
     (∀ c, c < 2 → ∀ i, i < 2 →
       ((renderMix ([(0 : ℤ), 0].map fun s : ℤ => (s : ℚ) / 32768) [[1 / 2]] (1 / 4)).getD c
           []).getD i 0 =
         ([(0 : ℤ), 0].map fun s : ℤ => (s : ℚ) / 32768).getD i 0 +
           (1 / 4) * (upmixChannel [[1 / 2]] c).getD (i % 1) 0) ∧
     ∃ blob, mixAudio [0, 0, 0, 0] (.ok [9]) (.ok [[1 / 2]]) (1 / 4) = .ok blob ∧
       blob.bytes.length = 44 + 2 * 4) := by
  refine ⟨rfl, ?_⟩
  apply C6_mix_looping [0, 0, 0, 0] [0, 0] [9] [[1 / 2]] (1 / 4) 2 1 rfl rfl ?_ ?_
  · intro ch hch
    rcases List.mem_singleton.mp hch with rfl
    rfl
  · simp

/-! ## Claim C7 -/

/-- C7: every rendered sample is `speech + gain * music` — the music
pre-scaled by the gain, the mono speech entering both stereo channels at
unity gain (subtracting the scaled music contribution from either channel
leaves exactly the speech sample) — and the render applies no
normalization or limiting: the sum can exceed 1. -/
theorem C7_mix_sum (speech : List ℚ) (music : List (List ℚ)) (gain : ℚ) :
    (∀ c, c < 2 → ∀ i, i < speech.length →
      ((renderMix speech music gain).getD c []).getD i 0 =
        speech.getD i 0 +
          gain * (upmixChannel music c).getD (i % (upmixChannel music c).length) 0) ∧
    (∀ i, i < speech.length →
      ((renderMix speech music gain).getD 0 []).getD i 0 -
          gain * (upmixChannel music 0).getD (i % (upmixChannel music 0).length) 0 =
        speech.getD i 0 ∧
      ((renderMix speech music gain).getD 1 []).getD i 0 -
          gain * (upmixChannel music 1).getD (i % (upmixChannel music 1).length) 0 =
        speech.getD i 0) ∧
    (∃ (sp : List ℚ) (m : List (List ℚ)) (g : ℚ) (j : ℕ), j < sp.length ∧
      1 < ((renderMix sp m g).getD 0 []).getD j 0) := by
  refine ⟨fun c hc i hi => renderMix_sample speech music gain hc hi, ?_, ?_⟩
  · intro i hi
    constructor
    · rw [renderMix_sample speech music gain (by omega) hi]
      ring
    · rw [renderMix_sample speech music gain (by omega) hi]
      ring
  · refine ⟨[1], [[1]], 1, 0, by simp, ?_⟩
    rw [renderMix_sample [1] [[1]] 1 (by omega) (by simp)]
    norm_num [upmixChannel]

/-- C7 witness: the sample formula instantiated at one speech frame of
1/2 against a one-frame music channel of 1/4 at unity gain. -/
theorem C7_mix_sum_witness :
    ((renderMix [(1 : ℚ) / 2] [[(1 : ℚ) / 4]] 1).getD 0 []).getD 0 0 =
      ([(1 : ℚ) / 2]).getD 0 0 +
        1 * (upmixChannel [[(1 : ℚ) / 4]] 0).getD
          (0 % (upmixChannel [[(1 : ℚ) / 4]] 0).length) 0 :=
  (C7_mix_sum [(1 : ℚ) / 2] [[(1 : ℚ) / 4]] 1).1 0 (by omega) 0 (by simp)

/-! ## Claim C8 -/

/-- C8: when the music source cannot be retrieved, `mixAudio` fails with
the fetch error — and so does the whole `assemble` call on the mix path —
producing no blob. -/
theorem C8_fetch_failure (speechBytes : List ℕ) (music : MusicDecodeOutcome) (vol : ℚ)
    (hev : speechBytes.length % 2 = 0) :
    mixAudio speechBytes .failed music vol = .error .musicFetchError ∧
    ∀ (payload bg : String) (cust : Option String) (url : String),
      decode payload = .ok speechBytes →
      selectedMusicUrl bg cust = some url → url ≠ "" → url ≠ "none" →
      assemble payload bg cust vol .failed music = .error .musicFetchError := by
  have hmix : mixAudio speechBytes .failed music vol = .error .musicFetchError := by
    unfold mixAudio
    rcases hcase : bytesToInt16s speechBytes with _ | ss
    · have := (bytesToInt16s_eq_none_iff speechBytes).mp hcase
      omega
    · rfl
  refine ⟨hmix, ?_⟩
  intro payload bg cust url hdec hsel hu1 hu2
  unfold assemble
  rw [hdec, hsel]
  dsimp only
  rw [if_pos ⟨hu1, hu2⟩]
  exact hmix

/-- C8 witness: an empty speech payload on the mix path with a failed
fetch surfaces the fetch error. -/
theorem C8_fetch_failure_witness :
    mixAudio [] .failed .failed (3 / 20) = .error .musicFetchError ∧
    assemble "" "music.mp3" none (3 / 20) .failed .failed = .error .musicFetchError := by
  have h := C8_fetch_failure [] .failed (3 / 20) (by decide)
  exact ⟨h.1, h.2 "" "music.mp3" none "music.mp3" rfl rfl (by decide) (by decide)⟩

end PodcastAudio
